import Mathlib

/-!
Shallow embedding of the transaction-verification core of the xelis
blockchain repository: the versioned storage types
(`xelis_daemon/src/core/storage/versioned_type.rs`), the transaction
verifier (`xelis_common/src/transaction/verify/mod.rs`) and the
contract-host native function registration
(`xelis_common/src/contract/mod.rs`), together with theorems settling
the specification claims about them.

Machine integers (u64) are modelled as `Nat` with explicit `2 ^ 64`
bounds where overflow matters.  External cryptographic primitives
(hashing, Schnorr signatures, sigma proofs) are supplied through a
`CryptoModel` parameter: the verifier code under scrutiny is generic
over them and never inspects their internals.
-/

namespace Xelis

/-! ## Versioned storage (`versioned_type.rs`) -/

/-- `TopoHeight` is a `u64` in the source. -/
abbrev TopoHeight := Nat

/-- `VersionedState` from `versioned_type.rs`. -/
inductive VersionedState where
  | new
  | fetchedAt (topoheight : TopoHeight)
  | updated (topoheight : TopoHeight)
  deriving DecidableEq, Repr

namespace VersionedState

/-- `VersionedState::is_new`. -/
def is_new : VersionedState → Bool
  | .new => true
  | _ => false

/-- `VersionedState::is_fetched_at`. -/
def is_fetched_at : VersionedState → Bool
  | .fetchedAt _ => true
  | _ => false

/-- `VersionedState::is_updated`. -/
def is_updated : VersionedState → Bool
  | .updated _ => true
  | _ => false

/-- `VersionedState::should_be_stored`: `!self.is_fetched_at()`. -/
def should_be_stored (s : VersionedState) : Bool :=
  ! s.is_fetched_at

/-- `VersionedState::get_topoheight`. -/
def get_topoheight : VersionedState → Option TopoHeight
  | .fetchedAt t => some t
  | .updated t => some t
  | .new => none

/-- `VersionedState::mark_updated`: `FetchedAt(t)` becomes `Updated(t)`,
`Updated(_)` is left unchanged, `New` is left unchanged (the source only
logs a debug message in that branch). -/
def mark_updated : VersionedState → VersionedState
  | .fetchedAt t => .updated t
  | .updated t => .updated t
  | .new => .new

end VersionedState

/-- `Versioned<T>` from `versioned_type.rs`: a `data` plus an optional
pointer to the previous topoheight. -/
structure Versioned (α : Type) where
  data : α
  previous_topoheight : Option TopoHeight
  deriving DecidableEq, Repr

/-- A byte of the wire format (value below 256 by construction of the
writers). -/
abbrev Byte := Nat

/-- Modelled from the spec: the `u64` `Serializer` implementation is not
under `src/`; per the wire-format section all integers are canonical
big-endian, so a `u64` is written as 8 big-endian bytes. -/
def u64be (t : Nat) : List Byte :=
  [t / 2 ^ 56 % 256, t / 2 ^ 48 % 256, t / 2 ^ 40 % 256, t / 2 ^ 32 % 256,
   t / 2 ^ 24 % 256, t / 2 ^ 16 % 256, t / 2 ^ 8 % 256, t % 256]

/-- Modelled from the spec: reading a `u64` consumes 8 big-endian bytes;
fewer than 8 remaining bytes is a `ReaderError`. -/
def readU64 : List Byte → Option (Nat × List Byte)
  | b0 :: b1 :: b2 :: b3 :: b4 :: b5 :: b6 :: b7 :: rest =>
      some (b0 * 2 ^ 56 + b1 * 2 ^ 48 + b2 * 2 ^ 40 + b3 * 2 ^ 32 +
            b4 * 2 ^ 24 + b5 * 2 ^ 16 + b6 * 2 ^ 8 + b7, rest)
  | _ => none

/-- A `Serializer` instance for the payload type `T`: `write` produces
bytes, `read` consumes a prefix of the input and returns the rest. -/
structure SerialT (α : Type) where
  write : α → List Byte
  read : List Byte → Option (α × List Byte)

/-- `impl Serializer for Versioned<T>`, `write`: the body, then the
previous topoheight when present. -/
def Versioned.writeBytes {α : Type} (st : SerialT α) (v : Versioned α) : List Byte :=
  st.write v.data ++ (match v.previous_topoheight with
    | none => []
    | some t => u64be t)

/-- `impl Serializer for Versioned<T>`, `read`: read the body; if no
bytes remain (`reader.size() == 0`) the previous topoheight is `None`,
otherwise it is read as a `u64`. -/
def Versioned.readBytes {α : Type} (st : SerialT α) (bytes : List Byte) :
    Option (Versioned α × List Byte) :=
  match st.read bytes with
  | none => none
  | some (d, rest) =>
    if rest.length = 0 then
      some (⟨d, none⟩, rest)
    else
      match readU64 rest with
      | none => none
      | some (t, rest') => some (⟨d, some t⟩, rest')

/-! ## Transaction verifier data model (`transaction/verify/mod.rs`) -/

/-- An asset identifier (a 32-byte hash in the source), modelled as `Nat`. -/
abbrev AssetHash := Nat

/-- A decompressed Ristretto point.  The Ristretto group is external to
the repository; the verifier only adds, subtracts and compares points,
so an additive abelian model (`Int`) is faithful to every operation the
verifier performs. -/
abbrev Point := Int

/-- A compressed point (32-byte wire form); decompression may fail. -/
inductive CPoint where
  | valid (p : Point)
  | invalid
  deriving DecidableEq, Repr

/-- `CompressedRistretto::decompress` / `CompressedPublicKey::decompress`. -/
def CPoint.decompress : CPoint → Option Point
  | .valid p => some p
  | .invalid => none

/-- `CompressedRistretto::identity()`. -/
def CPoint.identity : CPoint := .valid 0

/-- An ElGamal ciphertext: a Pedersen commitment plus a decrypt handle.
Adding a plain scalar `v` adds `v·G` to the commitment component and
leaves the handle untouched, as in the curve library. -/
structure Ciphertext where
  commitment : Point
  handle : Point
  deriving DecidableEq, Repr

/-- `Ciphertext::zero()`. -/
def Ciphertext.zero : Ciphertext := ⟨0, 0⟩

/-- Ciphertext addition (`+=` on ciphertexts). -/
def Ciphertext.add (a b : Ciphertext) : Ciphertext :=
  ⟨a.commitment + b.commitment, a.handle + b.handle⟩

/-- Ciphertext subtraction (`-=` on ciphertexts). -/
def Ciphertext.sub (a b : Ciphertext) : Ciphertext :=
  ⟨a.commitment - b.commitment, a.handle - b.handle⟩

/-- `ct += Scalar::from(v)`. -/
def Ciphertext.addScalar (a : Ciphertext) (v : Nat) : Ciphertext :=
  ⟨a.commitment + (v : Int), a.handle⟩

/-- A Schnorr signature, identified opaquely. -/
abbrev Sig := Nat

/-- A commitment-equality sigma proof, identified opaquely. -/
abbrev EqProof := Nat

/-- A ciphertext-validity sigma proof, identified opaquely. -/
abbrev CtProof := Nat

/-- The external cryptographic primitives the verifier is generic over:
hashing, signature verification, and the validity predicates that the
sigma batch collector ultimately checks.  The verifier never inspects
these; it only calls them. -/
structure CryptoModel where
  hashFn : List Byte → List Byte
  sigVerify : Sig → List Byte → Point → Bool
  eqProofValid : EqProof → Point → Ciphertext → Point → Bool
  ctProofValid : CtProof → Point → Point → Point → Bool

/-- `TxVersion`: V0 or V1. -/
inductive TxVersion where
  | v0
  | v1
  deriving DecidableEq, Repr

/-- `TxVersion` to `u64` (`version.into()`). -/
def TxVersion.toU64 : TxVersion → Nat
  | .v0 => 0
  | .v1 => 1

/-- `TransferPayload`.  Only the size of `extra_data` is inspected by the
verifier, so the field carries the size directly. -/
structure TransferPayload where
  asset : AssetHash
  destination : CPoint
  extra_data : Option Nat
  commitment : CPoint
  sender_handle : CPoint
  receiver_handle : CPoint
  ct_validity_proof : CtProof
  deriving DecidableEq, Repr

/-- `BurnPayload`: asset plus a `u64` amount. -/
structure BurnPayload where
  asset : AssetHash
  amount : Nat
  deriving DecidableEq, Repr

/-- `MultiSigPayload`: the threshold (`u8`) and participant keys. -/
structure MultiSigPayload where
  threshold : Nat
  participants : List CPoint
  deriving DecidableEq, Repr

/-- `TransactionType`: the tagged payload union. -/
inductive TransactionType where
  | transfers (l : List TransferPayload)
  | burn (payload : BurnPayload)
  | multiSig (payload : MultiSigPayload)
  deriving DecidableEq, Repr

/-- `SourceCommitment`: per-asset new commitment plus its equality proof. -/
structure SourceCommitment where
  commitment : CPoint
  proof : EqProof
  asset : AssetHash
  deriving DecidableEq, Repr

/-- `SigId`: a participant index (`u8`) and a signature. -/
structure SigId where
  id : Nat
  signature : Sig
  deriving DecidableEq, Repr

/-- `Transaction`.  The optional multisig header is its list of `SigId`s. -/
structure Transaction where
  version : TxVersion
  source : CPoint
  data : TransactionType
  fee : Nat
  nonce : Nat
  source_commitments : List SourceCommitment
  reference : Nat
  multisig : Option (List SigId)
  signature : Sig
  deriving DecidableEq, Repr

/-- Modelled from the spec: `XELIS_ASSET` (the native asset hash, a
constant in `config` outside `src/`), as a distinguished identifier. -/
def XELIS_ASSET : AssetHash := 0

/-- `SIGNATURE_SIZE`: 64 bytes per the wire format. -/
def SIGNATURE_SIZE : Nat := 64

/-- Modelled from the spec: `MAX_TRANSFER_COUNT` (constant outside
`src/`; the wire format stores the count in one byte). -/
def MAX_TRANSFER_COUNT : Nat := 255

/-- Modelled from the spec: `MAX_MULTISIG_PARTICIPANTS` (constant
outside `src/`; participant ids are one byte). -/
def MAX_MULTISIG_PARTICIPANTS : Nat := 255

/-- Modelled from the spec: `EXTRA_DATA_LIMIT_SIZE` (constant outside
`src/`). -/
def EXTRA_DATA_LIMIT_SIZE : Nat := 1024

/-- Modelled from the spec: `EXTRA_DATA_LIMIT_SUM_SIZE` (constant
outside `src/`). -/
def EXTRA_DATA_LIMIT_SUM_SIZE : Nat := 32 * 1024

/-- Decidable equality for `Except`, used to evaluate the embedded
verifier on concrete inputs. -/
instance {e a : Type} [DecidableEq e] [DecidableEq a] :
    DecidableEq (Except e a) := fun x y =>
  match x, y with
  | .error v, .error w =>
    if h : v = w then .isTrue (by rw [h]) else .isFalse (by simp [h])
  | .ok v, .ok w =>
    if h : v = w then .isTrue (by rw [h]) else .isFalse (by simp [h])
  | .error _, .ok _ => .isFalse (by simp)
  | .ok _, .error _ => .isFalse (by simp)

/-- `VerificationError<E>`.  The pure in-memory adapter used as the
verification state never fails, so the `State(E)` constructor carries no
payload here. -/
inductive VerificationError where
  | state
  | invalidNonce (got expected : Nat)
  | senderIsReceiver
  | invalidSignature
  | proof
  | transferExtraDataSize
  | transactionExtraDataSize
  | transferCount
  | commitments
  | multiSigParticipants
  | multiSigThreshold
  | multiSigNotConfigured
  | multiSigNotFound
  | invalidFormat
  deriving DecidableEq, Repr

/-- `Role`: whose decrypt handle to pair with a transfer commitment. -/
inductive Role where
  | sender
  | receiver
  deriving DecidableEq, Repr

/-- `DecompressedTransferCt`. -/
structure DecompressedTransferCt where
  commitment : Point
  sender_handle : Point
  receiver_handle : Point
  deriving DecidableEq, Repr

/-- `DecompressedTransferCt::decompress`. -/
def DecompressedTransferCt.decompress (t : TransferPayload) :
    Option DecompressedTransferCt :=
  match t.commitment.decompress, t.sender_handle.decompress,
        t.receiver_handle.decompress with
  | some c, some sh, some rh => some ⟨c, sh, rh⟩
  | _, _, _ => none

/-- `DecompressedTransferCt::get_ciphertext`. -/
def DecompressedTransferCt.get_ciphertext (d : DecompressedTransferCt) :
    Role → Ciphertext
  | .receiver => ⟨d.commitment, d.receiver_handle⟩
  | .sender => ⟨d.commitment, d.sender_handle⟩

/-- `transfer.get_ciphertext(Role).decompress()` on the compressed
payload, as used by the apply paths. -/
def TransferPayload.decompressCt (t : TransferPayload) (r : Role) :
    Option Ciphertext :=
  let h := match r with
    | .receiver => t.receiver_handle
    | .sender => t.sender_handle
  match t.commitment.decompress, h.decompress with
  | some c, some hp => some ⟨c, hp⟩
  | _, _ => none

/-! ## The pure in-memory verification state

The verifier is generic over a `BlockchainVerificationState` adapter.
It is instantiated here with a pure in-memory state (the in-memory test
double of the specification), whose operations are total: adapter errors
(`State(E)`) are outside the scope of the embedded claims. -/

/-- First-match association-list lookup with a default. -/
def lookupD {κ α : Type} [DecidableEq κ] (m : List (κ × α)) (k : κ) (d : α) : α :=
  match m.find? (fun e => e.1 = k) with
  | some e => e.2
  | none => d

/-- First-match association-list lookup. -/
def lookupO {κ α : Type} [DecidableEq κ] (m : List (κ × α)) (k : κ) : Option α :=
  match m.find? (fun e => e.1 = k) with
  | some e => some e.2
  | none => none

/-- The in-memory blockchain verification state. -/
structure VState where
  nonces : List (CPoint × Nat)
  senderBalances : List ((CPoint × AssetHash) × Ciphertext)
  receiverBalances : List ((CPoint × AssetHash) × Ciphertext)
  outputs : List ((CPoint × AssetHash) × Ciphertext)
  multisigStates : List (CPoint × MultiSigPayload)
  deriving DecidableEq, Repr

/-- `get_account_nonce`: absent accounts start at nonce 0. -/
def VState.get_account_nonce (s : VState) (k : CPoint) : Nat :=
  lookupD s.nonces k 0

/-- `update_account_nonce`. -/
def VState.update_account_nonce (s : VState) (k : CPoint) (n : Nat) : VState :=
  { s with nonces := (k, n) :: s.nonces }

/-- `get_sender_balance` (the historical balance at the tx reference;
the pure adapter keys only on account and asset). -/
def VState.get_sender_balance (s : VState) (k : CPoint) (a : AssetHash) : Ciphertext :=
  lookupD s.senderBalances (k, a) Ciphertext.zero

/-- Writing through the mutable handle returned by `get_sender_balance`. -/
def VState.set_sender_balance (s : VState) (k : CPoint) (a : AssetHash)
    (ct : Ciphertext) : VState :=
  { s with senderBalances := ((k, a), ct) :: s.senderBalances }

/-- `get_receiver_balance`: created lazily at zero when absent. -/
def VState.get_receiver_balance (s : VState) (k : CPoint) (a : AssetHash) : Ciphertext :=
  lookupD s.receiverBalances (k, a) Ciphertext.zero

/-- Writing through the mutable handle returned by `get_receiver_balance`. -/
def VState.set_receiver_balance (s : VState) (k : CPoint) (a : AssetHash)
    (ct : Ciphertext) : VState :=
  { s with receiverBalances := ((k, a), ct) :: s.receiverBalances }

/-- `add_sender_output`: bookkeeping record of an output ciphertext. -/
def VState.add_sender_output (s : VState) (k : CPoint) (a : AssetHash)
    (ct : Ciphertext) : VState :=
  { s with outputs := ((k, a), ct) :: s.outputs }

/-- `get_multisig_state`. -/
def VState.get_multisig_state (s : VState) (k : CPoint) : Option MultiSigPayload :=
  lookupO s.multisigStates k

/-- `set_multisig_state`. -/
def VState.set_multisig_state (s : VState) (k : CPoint) (p : MultiSigPayload) : VState :=
  { s with multisigStates := (k, p) :: s.multisigStates }

/-! ## Transcript -/

/-- One Merlin transcript append, tagged with its domain-separator label. -/
inductive TEntry where
  | init (label : String)
  | u64 (label : String) (v : Nat)
  | pubkey (label : String) (k : CPoint)
  | hashE (label : String) (h : AssetHash)
  | commit (label : String) (c : CPoint)
  | handle (label : String) (h : CPoint)
  | domainSep (label : String)
  deriving DecidableEq, Repr

/-- A Merlin transcript, most recent append first. -/
abbrev Transcript := List TEntry

/-- `Transaction::prepare_transcript`. -/
def prepareTranscript (version : TxVersion) (source : CPoint) (fee nonce : Nat) :
    Transcript :=
  [.u64 "nonce" nonce, .u64 "fee" fee, .pubkey "source_pubkey" source,
   .u64 "version" version.toU64, .init "transaction-proof"]

/-! ## Verifier helper functions -/

/-- `Transaction::as_valid_version_format`. -/
def Transaction.asValidVersionFormat (tx : Transaction) : Bool :=
  match tx.version with
  | .v0 =>
    if tx.multisig.isSome then false
    else match tx.data with
      | .multiSig _ => false
      | _ => true
  | .v1 => true

/-- `Transaction::get_sender_output_ct`. -/
def Transaction.getSenderOutputCt (tx : Transaction) (asset : AssetHash)
    (tds : List DecompressedTransferCt) : Ciphertext :=
  let o := Ciphertext.zero
  let o := if asset = XELIS_ASSET then o.addScalar tx.fee else o
  match tx.data with
  | .transfers ts =>
    (ts.zip tds).foldl
      (fun acc td =>
        if asset = td.1.asset then acc.add (td.2.get_ciphertext .sender) else acc) o
  | .burn p => if asset = p.asset then o.addScalar p.amount else o
  | .multiSig _ => o

/-- `Transaction::verify_commitment_assets`. -/
def Transaction.verifyCommitmentAssets (tx : Transaction) : Bool :=
  let hasCommitmentForAsset := fun (a : AssetHash) =>
    tx.source_commitments.any (fun c => c.asset = a)
  if ! hasCommitmentForAsset XELIS_ASSET then false
  else if tx.source_commitments.enum.any (fun ic =>
      tx.source_commitments.enum.any (fun ic2 =>
        ic.1 ≠ ic2.1 ∧ ic.2.asset = ic2.2.asset)) then false
  else match tx.data with
    | .transfers ts => ts.all (fun t => hasCommitmentForAsset t.asset)
    | .burn p => hasCommitmentForAsset p.asset
    | .multiSig _ => true

/-- The per-transfer checks of the payload-validation stage: no
self-send, per-transfer extra-data bound, accumulating the total
extra-data size. -/
def transferChecksLoop (source : CPoint) :
    List TransferPayload → Nat → Except VerificationError Nat
  | [], acc => .ok acc
  | t :: rest, acc =>
    if t.destination = source then .error .senderIsReceiver
    else match t.extra_data with
      | some sz =>
        if sz > EXTRA_DATA_LIMIT_SIZE then .error .transferExtraDataSize
        else transferChecksLoop source rest (acc + sz)
      | none => transferChecksLoop source rest acc

/-- Decompress every transfer ciphertext (an all-or-nothing `collect`). -/
def decompressTransfers : List TransferPayload → Option (List DecompressedTransferCt)
  | [] => some []
  | t :: rest =>
    match DecompressedTransferCt.decompress t, decompressTransfers rest with
    | some d, some ds => some (d :: ds)
    | _, _ => none

/-- Decompress every source commitment (an all-or-nothing `collect`). -/
def decompressSourceCommitments : List SourceCommitment → Option (List Point)
  | [] => some []
  | c :: rest =>
    match c.commitment.decompress, decompressSourceCommitments rest with
    | some p, some ps => some (p :: ps)
    | _, _ => none

/-- The payload-specific validation stage of `pre_verify` (transfer
bounds, decompression, burn overflow check); returns the decompressed
transfers. -/
def payloadPreStage (tx : Transaction) :
    Except VerificationError (List DecompressedTransferCt) :=
  match tx.data with
  | .transfers ts =>
    if ts.length > MAX_TRANSFER_COUNT ∨ ts.length = 0 then .error .transferCount
    else match transferChecksLoop tx.source ts 0 with
      | .error e => .error e
      | .ok sz =>
        if sz > EXTRA_DATA_LIMIT_SUM_SIZE then .error .transactionExtraDataSize
        else match decompressTransfers ts with
          | none => .error .proof
          | some tds => .ok tds
  | .burn p =>
    if tx.fee + p.amount ≥ 2 ^ 64 then .error .invalidFormat
    else if tx.fee + p.amount < tx.fee ∨ tx.fee + p.amount < p.amount then
      .error .invalidFormat
    else .ok []
  | .multiSig _ => .ok []

/-- The per-signature loop of the multisig verification stage: look the
participant up by id, decompress it, verify the signature on the
multisig body hash. -/
def multisigSigsLoop (cm : CryptoModel) (participants : List CPoint)
    (h : List Byte) : List SigId → Except VerificationError Unit
  | [] => .ok ()
  | sig :: rest =>
    match participants.get? sig.id with
    | none => .error .multiSigParticipants
    | some key =>
      match key.decompress with
      | none => .error .proof
      | some pk =>
        if cm.sigVerify sig.signature h pk then
          multisigSigsLoop cm participants h rest
        else .error .invalidSignature

/-- The multisig verification stage of `pre_verify` (step 0.b): given
the multisig config reported by the state and the tx's multisig header,
check the participant count, compute the multisig body hash over
`bytes[.. len − tail]` (rejecting first when `tail ≥ len`), then verify
every listed signature. -/
def multisigCheck (cm : CryptoModel) (config : Option MultiSigPayload)
    (ms : Option (List SigId)) (bytes : List Byte) :
    Except VerificationError Unit :=
  match config with
  | some cfg =>
    match ms with
    | none => .error .multiSigNotFound
    | some sigs =>
      if cfg.threshold ≠ sigs.length ∨ sigs.length > MAX_MULTISIG_PARTICIPANTS then
        .error .multiSigParticipants
      else
        let size := 1 + 1 + SIGNATURE_SIZE + sigs.length * (SIGNATURE_SIZE + 1)
        if size ≥ bytes.length then .error .invalidFormat
        else
          multisigSigsLoop cm cfg.participants
            (cm.hashFn (bytes.take (bytes.length - size))) sigs
  | none =>
    if ms.isSome then .error .multiSigNotConfigured else .ok ()

/-- The commitment-equality-proof loop of `pre_verify` (step 1): for
each source commitment, subtract the output ciphertext from the sender
balance in place, extend the transcript, feed the sigma batch collector,
and record the output.  The pure adapter never fails, so the loop is
total. -/
def eqProofLoop (cm : CryptoModel) (tx : Transaction) (owner : Point)
    (tds : List DecompressedTransferCt) :
    List (SourceCommitment × Point) → VState → Transcript → List Bool →
    VState × Transcript × List Bool
  | [], s, tr, col => (s, tr, col)
  | (c, ncPoint) :: rest, s, tr, col =>
    let output := tx.getSenderOutputCt c.asset tds
    let newBal := (s.get_sender_balance tx.source c.asset).sub output
    let s1 := s.set_sender_balance tx.source c.asset newBal
    let tr1 := TEntry.commit "new_source_commitment" c.commitment ::
               TEntry.hashE "new_source_commitment_asset" c.asset ::
               TEntry.domainSep "new_commitment_eq_proof" :: tr
    let col1 := cm.eqProofValid c.proof owner newBal ncPoint :: col
    let s2 := s1.add_sender_output tx.source c.asset output
    eqProofLoop cm tx owner tds rest s2 tr1 col1

/-- The per-transfer loop of `pre_verify` (step 2): decompress the
destination key, credit the receiver balance, extend the transcript,
feed the collector with the ciphertext-validity proof, and push the
`(decompressed commitment, compressed commitment)` pair. -/
def transferApplyLoop (cm : CryptoModel) :
    List (TransferPayload × DecompressedTransferCt) → VState → Transcript →
    List Bool → List (Point × CPoint) →
    Except VerificationError Unit × VState × Transcript × List Bool ×
      List (Point × CPoint)
  | [], s, tr, col, pairs => (.ok (), s, tr, col, pairs)
  | (t, d) :: rest, s, tr, col, pairs =>
    match t.destination.decompress with
    | none => (.error .proof, s, tr, col, pairs)
    | some receiver =>
      let bal := s.get_receiver_balance t.destination t.asset
      let s1 := s.set_receiver_balance t.destination t.asset
        (bal.add (d.get_ciphertext .receiver))
      let tr1 := TEntry.handle "amount_receiver_handle" t.receiver_handle ::
                 TEntry.handle "amount_sender_handle" t.sender_handle ::
                 TEntry.commit "amount_commitment" t.commitment ::
                 TEntry.pubkey "dest_pubkey" t.destination ::
                 TEntry.domainSep "transfer_proof" :: tr
      let col1 := cm.ctProofValid t.ct_validity_proof d.commitment receiver
        d.receiver_handle :: col
      transferApplyLoop cm rest s1 tr1 col1 (pairs ++ [(d.commitment, t.commitment)])

/-- The payload branch of `pre_verify` after the equality proofs
(step 2 for transfers, step 12 for burns, step 13 for multisig
configuration). -/
def payloadStage (cm : CryptoModel) (tx : Transaction)
    (tds : List DecompressedTransferCt) (s : VState) (tr : Transcript)
    (col : List Bool) :
    Except VerificationError Unit × VState × Transcript × List Bool ×
      List (Point × CPoint) :=
  match tx.data with
  | .transfers ts => transferApplyLoop cm (ts.zip tds) s tr col []
  | .burn p =>
    if p.amount = 0 then (.error .invalidFormat, s, tr, col, [])
    else
      let bal := s.get_receiver_balance tx.source p.asset
      (.ok (), s.set_receiver_balance tx.source p.asset (bal.addScalar p.amount),
        tr, col, [])
  | .multiSig p =>
    if p.participants.length > MAX_MULTISIG_PARTICIPANTS then
      (.error .multiSigParticipants, s, tr, col, [])
    else if p.threshold > p.participants.length then
      (.error .multiSigThreshold, s, tr, col, [])
    else if (p.threshold = 0 ∧ p.participants ≠ []) ∧
        (s.get_multisig_state tx.source).isNone then
      (.error .multiSigNotConfigured, s, tr, col, [])
    else
      let tr1 := p.participants.foldl
        (fun acc k => TEntry.pubkey "multisig_participant" k :: acc)
        (TEntry.u64 "multisig_threshold" p.threshold ::
         TEntry.domainSep "multisig_proof" :: tr)
      (.ok (), s.set_multisig_state tx.source p, tr1, col, [])

/-- The number of payload commitments a transaction contributes beyond
its source commitments. -/
def Transaction.numTransfers (tx : Transaction) : Nat :=
  match tx.data with
  | .transfers ts => ts.length
  | _ => 0

/-- `checked_next_power_of_two`: the smallest power of two at least
`n`, computed by the doubling loop of the standard library; written with
structural fuel (`n` doublings always suffice) so that it evaluates in
the kernel.  Overflow cannot occur over `Nat`. -/
def nextPow2Go (n : Nat) : Nat → Nat → Nat
  | 0, power => power
  | fuel + 1, power => if power < n then nextPow2Go n fuel (power * 2) else power

/-- `n.checked_next_power_of_two()` over `Nat`. -/
def nextPow2 (n : Nat) : Nat := nextPow2Go n n 1

/-- Step 14 of `pre_verify`: the value-commitment vector, source pairs
first, then the transfer pairs, then `(identity, identity)` duds raising
the count to the next power of two. -/
def assembleCommitments (tx : Transaction) (ncs : List Point)
    (valuePairs : List (Point × CPoint)) : List (Point × CPoint) :=
  let n := tx.source_commitments.length + tx.numTransfers
  let dud := nextPow2 n - n
  ((tx.source_commitments.zip ncs).map fun cp => (cp.2, cp.1.commitment)) ++
    valuePairs ++ List.replicate dud ((0 : Point), CPoint.identity)

/-- `Transaction::pre_verify`, stage by stage in source order, threading
the state and the sigma batch collector; on error the state reflects
every mutation issued before the failure. -/
def Transaction.preVerify (cm : CryptoModel) (tx : Transaction)
    (bytes : List Byte) (s : VState) (col : List Bool) :
    Except VerificationError (Transcript × List (Point × CPoint)) ×
      VState × List Bool :=
  if ! tx.asValidVersionFormat then (.error .invalidFormat, s, col)
  else
    let a := s.get_account_nonce tx.source
    if a ≠ tx.nonce then (.error (.invalidNonce a tx.nonce), s, col)
    else
      let s := s.update_account_nonce tx.source (tx.nonce + 1)
      if ! tx.verifyCommitmentAssets then (.error .commitments, s, col)
      else match payloadPreStage tx with
        | .error e => (.error e, s, col)
        | .ok tds =>
          match decompressSourceCommitments tx.source_commitments with
          | none => (.error .proof, s, col)
          | some ncs =>
            match tx.source.decompress with
            | none => (.error .proof, s, col)
            | some owner =>
              let tr := prepareTranscript tx.version tx.source tx.fee tx.nonce
              if ! cm.sigVerify tx.signature
                  (bytes.take (bytes.length - SIGNATURE_SIZE)) owner then
                (.error .invalidSignature, s, col)
              else match multisigCheck cm (s.get_multisig_state tx.source)
                  tx.multisig bytes with
                | .error e => (.error e, s, col)
                | .ok _ =>
                  let r := eqProofLoop cm tx owner tds
                    (tx.source_commitments.zip ncs) s tr col
                  match payloadStage cm tx tds r.1 r.2.1 r.2.2 with
                  | (.error e, s2, _, col2, _) => (.error e, s2, col2)
                  | (.ok _, s2, tr2, col2, pairs) =>
                    (.ok (tr2, assembleCommitments tx ncs pairs), s2, col2)

/-! ## `apply_without_verify` and `apply_with_partial_verify` -/

/-- The source-commitment loop shared by `apply_without_verify`:
subtract the output from the sender balance and record it. -/
def senderApplyLoop (tx : Transaction) (tds : List DecompressedTransferCt) :
    List SourceCommitment → VState → VState
  | [], s => s
  | c :: rest, s =>
    let output := tx.getSenderOutputCt c.asset tds
    let bal := s.get_sender_balance tx.source c.asset
    let s1 := s.set_sender_balance tx.source c.asset (bal.sub output)
    senderApplyLoop tx tds rest (s1.add_sender_output tx.source c.asset output)

/-- The receiver-credit loop shared by both apply paths: decompress the
receiver view of each transfer ciphertext and add it to the receiver
balance; a decompression failure aborts with the state mutated so far. -/
def receiverApplyLoop :
    List TransferPayload → VState → Except VerificationError Unit × VState
  | [], s => (.ok (), s)
  | t :: rest, s =>
    let bal := s.get_receiver_balance t.destination t.asset
    match t.decompressCt .receiver with
    | none => (.error .proof, s)
    | some ct =>
      receiverApplyLoop rest
        (s.set_receiver_balance t.destination t.asset (bal.add ct))

/-- Decompressing this transaction's transfers, shared by both apply
paths: the empty list when the payload is not a transfer. -/
def Transaction.decompressTxTransfers (tx : Transaction) :
    Except VerificationError (List DecompressedTransferCt) :=
  match tx.data with
  | .transfers ts =>
    match decompressTransfers ts with
    | none => .error .proof
    | some tds => .ok tds
  | _ => .ok []

/-- `Transaction::apply_without_verify`: bump the nonce, decompress,
subtract per-asset outputs, credit receivers, set the multisig config;
no proof or transcript work. -/
def Transaction.applyWithoutVerify (tx : Transaction) (s : VState) :
    Except VerificationError Unit × VState :=
  let s := s.update_account_nonce tx.source (tx.nonce + 1)
  match tx.decompressTxTransfers with
  | .error e => (.error e, s)
  | .ok tds =>
    let s := senderApplyLoop tx tds tx.source_commitments s
    match tx.data with
    | .transfers ts => receiverApplyLoop ts s
    | .burn _ => (.ok (), s)
    | .multiSig p => (.ok (), s.set_multisig_state tx.source p)

/-- Phase one of `apply_with_partial_verify`: build every sender-balance
update on a cloned (shadow) ciphertext, feeding transcript and sigma
collector; the state is only read. -/
def partialChangesLoop (cm : CryptoModel) (tx : Transaction) (owner : Point)
    (tds : List DecompressedTransferCt) (s : VState) :
    List (SourceCommitment × Point) → Transcript → List Bool →
    List (Ciphertext × Ciphertext × AssetHash) →
    Transcript × List Bool × List (Ciphertext × Ciphertext × AssetHash)
  | [], tr, col, changes => (tr, col, changes)
  | (c, ncPoint) :: rest, tr, col, changes =>
    let output := tx.getSenderOutputCt c.asset tds
    let ct := (s.get_sender_balance tx.source c.asset).sub output
    let tr1 := TEntry.commit "new_source_commitment" c.commitment ::
               TEntry.hashE "new_source_commitment_asset" c.asset ::
               TEntry.domainSep "new_commitment_eq_proof" :: tr
    let col1 := cm.eqProofValid c.proof owner ct ncPoint :: col
    partialChangesLoop cm tx owner tds s rest tr1 col1
      (changes ++ [(ct, output, c.asset)])

/-- Commit phase of `apply_with_partial_verify`: overwrite each sender
balance with its shadow ciphertext and record the output. -/
def commitChangesLoop (tx : Transaction) :
    List (Ciphertext × Ciphertext × AssetHash) → VState → VState
  | [], s => s
  | (ct, output, a) :: rest, s =>
    let s1 := s.set_sender_balance tx.source a ct
    commitChangesLoop tx rest (s1.add_sender_output tx.source a output)

/-- `Transaction::apply_with_partial_verify`: decompress, build all
sender updates on shadows, verify the sigma batch, and only then commit
the shadows and credit the receivers. -/
def Transaction.applyWithPartialVerify (cm : CryptoModel) (tx : Transaction)
    (s : VState) : Except VerificationError Unit × VState :=
  match tx.decompressTxTransfers with
  | .error e => (.error e, s)
  | .ok tds =>
    match decompressSourceCommitments tx.source_commitments with
    | none => (.error .proof, s)
    | some ncs =>
      match tx.source.decompress with
      | none => (.error .proof, s)
      | some owner =>
        let tr := prepareTranscript tx.version tx.source tx.fee tx.nonce
        let r := partialChangesLoop cm tx owner tds s
          (tx.source_commitments.zip ncs) tr [] []
        if ! r.2.1.all id then (.error .proof, s)
        else
          let s1 := commitChangesLoop tx r.2.2 s
          match tx.data with
          | .transfers ts => receiverApplyLoop ts s1
          | .burn _ => (.ok (), s1)
          | .multiSig p => (.ok (), s1.set_multisig_state tx.source p)

/-! ## Contract host (`contract/mod.rs`) -/

/-- A VM value, as far as the embedded claims need it. -/
inductive VmValue where
  | u64 (v : Nat)
  | boolean (b : Bool)
  deriving DecidableEq, Repr

/-- The registration record a native function is entered with in
`build_environment`: name, receiver type, parameters, handler cost and
declared return type. -/
structure NativeFunctionReg where
  name : String
  on_type : Option String
  params : List (String × String)
  cost : Nat
  return_type : Option String
  deriving DecidableEq, Repr

/-- The `get_balance_for_asset` registration from `build_environment`:
one `asset: Hash` parameter, cost 25, declared return type `U64`. -/
def get_balance_for_asset_reg : NativeFunctionReg :=
  { name := "get_balance_for_asset"
    on_type := none
    params := [("asset", "Hash")]
    cost := 25
    return_type := some "U64" }

/-- The `get_balance_for_asset` handler: it ignores instance, parameters
and context and returns `Ok(None)` — no value is handed back to the VM. -/
def get_balance_for_asset (_inst : Unit) (_params : List VmValue)
    (_ctx : Unit) : Except String (Option VmValue) :=
  .ok none

/-! ## Definitions used to state and instantiate the claims -/

/-- The transfer pairs of the value-commitment vector: for each transfer
its decompressed commitment point paired with its compressed commitment,
in transfer order. -/
def Transaction.transferPairs (tx : Transaction) : List (Point × CPoint) :=
  match tx.data with
  | .transfers ts => ts.map fun t => ((t.commitment.decompress).getD 0, t.commitment)
  | _ => []

/-- The value-commitment vector as claim C6 words it: for each source
commitment the pair `(new_commitment_point, old_commitment_point)`,
reading the old commitment from the sender's balance for that asset
before the transaction (in compressed form), then the transfer pairs,
then `(identity, identity)` padding to the next power of two. -/
def specValueCommitmentsC6 (s : VState) (tx : Transaction) :
    List (Point × CPoint) :=
  let n := tx.source_commitments.length + tx.numTransfers
  (tx.source_commitments.map fun c =>
    ((c.commitment.decompress).getD 0,
     CPoint.valid (s.get_sender_balance tx.source c.asset).commitment)) ++
  tx.transferPairs ++
  List.replicate (nextPow2 n - n) ((0 : Point), CPoint.identity)

/-- A crypto model in which every signature and every sigma proof
verifies. -/
def cmAll : CryptoModel :=
  ⟨fun b => b, fun _ _ _ => true, fun _ _ _ _ => true, fun _ _ _ _ => true⟩

/-- A crypto model in which no signature verifies but every sigma proof
does. -/
def cmNoSig : CryptoModel :=
  ⟨fun b => b, fun _ _ _ => false, fun _ _ _ _ => true, fun _ _ _ _ => true⟩

/-- A crypto model in which every signature verifies but no
commitment-equality proof does. -/
def cmBadEq : CryptoModel :=
  ⟨fun b => b, fun _ _ _ => true, fun _ _ _ _ => false, fun _ _ _ _ => true⟩

/-- The empty verification state. -/
def s0 : VState := ⟨[], [], [], [], []⟩

/-- A state in which the source account `valid 1` holds the native-asset
balance ciphertext `(100, 7)`. -/
def s6 : VState := ⟨[], [((CPoint.valid 1, 0), ⟨100, 7⟩)], [], [], []⟩

/-- 100 bytes of serialized transaction. -/
def bytes0 : List Byte := List.replicate 100 0

/-- 300 bytes of serialized transaction (long enough for a 2-signature
multisig tail). -/
def bytesL : List Byte := List.replicate 300 0

/-- A well-formed V1 burn transaction: nonce 0, fee 1, burning 5 of the
native asset, with the mandatory native-asset source commitment. -/
def txBurn0 : Transaction :=
  { version := .v1, source := .valid 1, data := .burn ⟨0, 5⟩, fee := 1, nonce := 0,
    source_commitments := [⟨.valid 42, 0, 0⟩], reference := 0,
    multisig := none, signature := 0 }

/-- `txBurn0` with the burned amount replaced by 0. -/
def txBurnZero : Transaction := { txBurn0 with data := .burn ⟨0, 0⟩ }

/-- A 2-of-3 multisig configuration. -/
def cfg23 : MultiSigPayload := ⟨2, [.valid 10, .valid 11, .valid 12]⟩

/-- The trivial serializer for `Unit`: an empty body that consumes
nothing. -/
def stUnit : SerialT Unit := ⟨fun _ => [], fun b => some ((), b)⟩

/-- `txBurn0` burning `u64::MAX - fee + 1`, so that `fee + amount`
overflows a `u64`. -/
def txOver : Transaction := { txBurn0 with data := .burn ⟨0, 2 ^ 64 - 1⟩, fee := 2 }

/-- `txBurn0` carrying an (empty) multisig header. -/
def txBurnMs : Transaction := { txBurn0 with multisig := some [] }

/-! ## Helper lemmas -/

lemma readU64_u64be (t : Nat) (ht : t < 2 ^ 64) :
    readU64 (u64be t) = some (t, []) := by
  simp only [u64be, readU64]
  refine congrArg some (Prod.ext ?_ rfl)
  simp only
  omega

lemma lookupD_cons_self {κ α : Type} [DecidableEq κ] (m : List (κ × α))
    (k : κ) (v d : α) : lookupD ((k, v) :: m) k d = v := by
  simp [lookupD, List.find?]

lemma get_account_nonce_update_self (s : VState) (k : CPoint) (n : Nat) :
    (s.update_account_nonce k n).get_account_nonce k = n := by
  simp [VState.get_account_nonce, VState.update_account_nonce, lookupD_cons_self]

lemma get_account_nonce_congr {s1 s2 : VState} (h : s1.nonces = s2.nonces)
    (k : CPoint) : s1.get_account_nonce k = s2.get_account_nonce k := by
  simp [VState.get_account_nonce, h]

lemma eqProofLoop_nonces (cm : CryptoModel) (tx : Transaction) (o : Point)
    (tds : List DecompressedTransferCt) :
    ∀ (l : List (SourceCommitment × Point)) (s : VState) (tr : Transcript)
      (col : List Bool),
      (eqProofLoop cm tx o tds l s tr col).1.nonces = s.nonces
  | [], _, _, _ => rfl
  | _ :: rest, _, _, _ =>
    eqProofLoop_nonces cm tx o tds rest _ _ _

lemma transferApplyLoop_nonces (cm : CryptoModel) :
    ∀ (l : List (TransferPayload × DecompressedTransferCt)) (s : VState)
      (tr : Transcript) (col : List Bool) (pairs : List (Point × CPoint)),
      (transferApplyLoop cm l s tr col pairs).2.1.nonces = s.nonces
  | [], _, _, _, _ => rfl
  | (t, d) :: rest, s, tr, col, pairs => by
    rw [transferApplyLoop]
    cases t.destination.decompress with
    | none => rfl
    | some receiver => exact transferApplyLoop_nonces cm rest _ _ _ _

lemma payloadStage_nonces (cm : CryptoModel) (tx : Transaction)
    (tds : List DecompressedTransferCt) (s : VState) (tr : Transcript)
    (col : List Bool) :
    (payloadStage cm tx tds s tr col).2.1.nonces = s.nonces := by
  rw [payloadStage]
  cases tx.data with
  | transfers ts => exact transferApplyLoop_nonces cm _ _ _ _ _
  | burn p =>
    by_cases h : p.amount = 0 <;> simp [h, VState.set_receiver_balance]
  | multiSig p =>
    dsimp only
    split
    · rfl
    · split
      · rfl
      · split
        · rfl
        · rfl

lemma receiverApplyLoop_nonces :
    ∀ (l : List TransferPayload) (s : VState),
      (receiverApplyLoop l s).2.nonces = s.nonces
  | [], _ => rfl
  | t :: rest, s => by
    rw [receiverApplyLoop]
    cases t.decompressCt .receiver with
    | none => rfl
    | some ct => exact receiverApplyLoop_nonces rest _

lemma senderApplyLoop_nonces (tx : Transaction)
    (tds : List DecompressedTransferCt) :
    ∀ (l : List SourceCommitment) (s : VState),
      (senderApplyLoop tx tds l s).nonces = s.nonces
  | [], _ => rfl
  | _ :: rest, _ => senderApplyLoop_nonces tx tds rest _

lemma commitChangesLoop_nonces (tx : Transaction) :
    ∀ (l : List (Ciphertext × Ciphertext × AssetHash)) (s : VState),
      (commitChangesLoop tx l s).nonces = s.nonces
  | [], _ => rfl
  | _ :: rest, _ => commitChangesLoop_nonces tx rest _

/-! ## Claim theorems -/

/-- C8: `mark_updated` maps `FetchedAt(t)` to `Updated(t)` preserving
`t`, leaves `Updated(t)` and `New` unchanged; `should_be_stored` holds
exactly when the state is not a `FetchedAt`; hence
`should_be_stored(mark_updated(FetchedAt(t)))` and
`is_new(mark_updated(New))` both hold. -/
theorem versionedState_mark_updated_spec (t : TopoHeight) (st : VersionedState) :
    VersionedState.mark_updated (.fetchedAt t) = .updated t ∧
    VersionedState.mark_updated (.updated t) = .updated t ∧
    VersionedState.mark_updated .new = .new ∧
    (st.should_be_stored = true ↔ ∀ u, st ≠ .fetchedAt u) ∧
    (VersionedState.mark_updated (.fetchedAt t)).should_be_stored = true ∧
    (VersionedState.mark_updated .new).is_new = true := by
  refine ⟨rfl, rfl, rfl, ?_, rfl, rfl⟩
  cases st <;> simp [VersionedState.should_be_stored, VersionedState.is_fetched_at]

/-- C9: the `get_balance_for_asset` native function is registered with a
single `asset: Hash` parameter, gas cost 25 and declared return type
`U64`, yet its handler returns `Ok(None)`: no `u64` value is handed back
to the VM (evaluation of the code at the failing input). -/
theorem get_balance_for_asset_spec :
    get_balance_for_asset_reg.params = [("asset", "Hash")] ∧
    get_balance_for_asset_reg.cost = 25 ∧
    get_balance_for_asset_reg.return_type = some "U64" ∧
    get_balance_for_asset () [] () = .ok none ∧
    (¬ ∃ v, get_balance_for_asset () [] () = .ok (some (.u64 v))) := by
  refine ⟨rfl, rfl, rfl, rfl, ?_⟩
  rintro ⟨v, h⟩
  simp [get_balance_for_asset] at h

/-- C7: for every `T`-serializer that reads back exactly what it wrote,
`Versioned<T>` round-trips through its wire form for both
`previous_topoheight = None` and `Some(t)`; and a reader left with no
bytes after the `T` body decodes the previous topoheight as `None`. -/
theorem versioned_serializer_roundtrip {α : Type} (st : SerialT α)
    (hrt : ∀ x rest, st.read (st.write x ++ rest) = some (x, rest))
    (v : Versioned α)
    (hb : ∀ t, v.previous_topoheight = some t → t < 2 ^ 64) :
    Versioned.readBytes st (Versioned.writeBytes st v) = some (v, []) ∧
    (∀ bytes d, st.read bytes = some (d, []) →
      Versioned.readBytes st bytes = some (⟨d, none⟩, [])) := by
  constructor
  · rcases v with ⟨d, p⟩
    cases p with
    | none =>
      have h := hrt d []
      rw [List.append_nil] at h
      simp [Versioned.writeBytes, Versioned.readBytes, h]
    | some t =>
      have ht : t < 2 ^ 64 := hb t rfl
      have hne : u64be t ≠ [] := by simp [u64be]
      simp [Versioned.writeBytes, Versioned.readBytes, hrt, hne,
        readU64_u64be t ht]
  · intro bytes d h
    simp [Versioned.readBytes, h]

/-- Witness for C7 at the trivial `Unit` serializer with
`previous_topoheight = Some(5)`. -/
theorem versioned_serializer_roundtrip_witness :
    Versioned.readBytes stUnit (Versioned.writeBytes stUnit ⟨(), some 5⟩) =
      some (⟨(), some 5⟩, []) :=
  (versioned_serializer_roundtrip stUnit (fun _ _ => rfl) ⟨(), some 5⟩
    (fun t h => by
      have h2 := Option.some.inj h
      subst h2
      decide)).1

/-- C1: after the format gate and the state hook, `pre_verify` fetches
the account nonce `a` and rejects with `InvalidNonce(a, tx.nonce)`
whenever `a ≠ tx.nonce`; on success the account nonce observed
afterwards is `tx.nonce + 1`; and the same transaction submitted twice
in one batch passes the first time and fails the second time with
`InvalidNonce(1, 0)`. -/
theorem preVerify_nonce_spec :
    (∀ (cm : CryptoModel) (tx : Transaction) (bytes : List Byte) (s : VState)
      (col : List Bool),
      tx.asValidVersionFormat = true →
      s.get_account_nonce tx.source ≠ tx.nonce →
      (Transaction.preVerify cm tx bytes s col).1 =
        .error (.invalidNonce (s.get_account_nonce tx.source) tx.nonce)) ∧
    (∀ (cm : CryptoModel) (tx : Transaction) (bytes : List Byte) (s : VState)
      (col : List Bool) v s2 col2,
      Transaction.preVerify cm tx bytes s col = (.ok v, s2, col2) →
      s2.get_account_nonce tx.source = tx.nonce + 1) ∧
    ((txBurn0.preVerify cmAll bytes0 s0 []).1.isOk = true ∧
     (txBurn0.preVerify cmAll bytes0
        (txBurn0.preVerify cmAll bytes0 s0 []).2.1 []).1 =
       .error (.invalidNonce 1 0)) := by
  refine ⟨?_, ?_, rfl, rfl⟩
  · intro cm tx bytes s col hfmt hne
    rw [Transaction.preVerify]
    simp [hfmt, hne]
  · intro cm tx bytes s col v s2 col2 h
    simp only [Transaction.preVerify] at h
    split at h
    · simp at h
    split at h
    · simp at h
    split at h
    · simp at h
    split at h
    · simp at h
    split at h
    · simp at h
    split at h
    · simp at h
    split at h
    · simp at h
    split at h
    · simp at h
    split at h
    · simp at h
    rename_i u s2b tr2 col2b pairs heq
    simp only [Prod.mk.injEq, Except.ok.injEq] at h
    obtain ⟨-, hs2, -⟩ := h
    subst hs2
    have h1 := congrArg (fun z => z.2.1.nonces) heq
    simp only at h1
    rw [payloadStage_nonces] at h1
    rw [eqProofLoop_nonces] at h1
    rw [get_account_nonce_congr h1.symm, get_account_nonce_update_self]

/-- Witness for C1: an account whose stored nonce is 7 rejects a
transaction carrying nonce 0 with `InvalidNonce(7, 0)`. -/
theorem preVerify_nonce_spec_witness :
    (txBurn0.preVerify cmAll bytes0 (s0.update_account_nonce (.valid 1) 7) []).1 =
      .error (.invalidNonce 7 0) :=
  preVerify_nonce_spec.1 cmAll txBurn0 bytes0
    (s0.update_account_nonce (.valid 1) 7) [] rfl (by decide)

/-- C4 counterexample: a burn of amount 0 whose signature does not
verify is rejected with `InvalidSignature`, not `InvalidFormat` — the
zero-amount check runs only after the signature check. -/
theorem burn_zero_amount_after_signature_cex :
    (txBurnZero.preVerify cmNoSig bytes0 s0 []).1 = .error .invalidSignature ∧
    (txBurnZero.preVerify cmNoSig bytes0 s0 []).1 ≠
      .error (.invalidFormat : VerificationError) := by
  constructor
  · rfl
  · intro h
    have h2 : (VerificationError.invalidSignature : VerificationError) =
        .invalidFormat := by
      have h0 : (txBurnZero.preVerify cmNoSig bytes0 s0 []).1 =
          .error .invalidSignature := rfl
      exact Except.error.inj (h0.symm.trans h)
    cases h2

/-- C4 (amended): for a burn payload, the `fee + amount` overflow check
runs in payload validation, before the signature check, and yields
`InvalidFormat`; the `amount > 0` check instead runs only after
signature (and multisig) verification, so a zero-amount burn with an
invalid signature fails with `InvalidSignature`, and a zero-amount burn
on an otherwise fully valid path fails with `InvalidFormat`. -/
theorem burn_checks_order_spec :
    (∀ (cm : CryptoModel) (tx : Transaction) (bytes : List Byte) (s : VState)
      (col : List Bool) (p : BurnPayload),
      tx.data = .burn p →
      tx.asValidVersionFormat = true →
      s.get_account_nonce tx.source = tx.nonce →
      tx.verifyCommitmentAssets = true →
      tx.fee + p.amount ≥ 2 ^ 64 →
      (Transaction.preVerify cm tx bytes s col).1 = .error .invalidFormat) ∧
    (∀ (cm : CryptoModel) (tx : Transaction) (bytes : List Byte) (s : VState)
      (col : List Bool) (p : BurnPayload) (ncs : List Point) (owner : Point),
      tx.data = .burn p →
      tx.asValidVersionFormat = true →
      s.get_account_nonce tx.source = tx.nonce →
      tx.verifyCommitmentAssets = true →
      tx.fee + p.amount < 2 ^ 64 →
      decompressSourceCommitments tx.source_commitments = some ncs →
      tx.source.decompress = some owner →
      cm.sigVerify tx.signature (bytes.take (bytes.length - SIGNATURE_SIZE)) owner
        = false →
      (Transaction.preVerify cm tx bytes s col).1 = .error .invalidSignature) ∧
    (∀ (cm : CryptoModel) (tx : Transaction) (bytes : List Byte) (s : VState)
      (col : List Bool) (p : BurnPayload) (ncs : List Point) (owner : Point),
      tx.data = .burn p →
      tx.asValidVersionFormat = true →
      s.get_account_nonce tx.source = tx.nonce →
      tx.verifyCommitmentAssets = true →
      tx.fee + p.amount < 2 ^ 64 →
      decompressSourceCommitments tx.source_commitments = some ncs →
      tx.source.decompress = some owner →
      cm.sigVerify tx.signature (bytes.take (bytes.length - SIGNATURE_SIZE)) owner
        = true →
      multisigCheck cm (s.get_multisig_state tx.source) tx.multisig bytes = .ok () →
      p.amount = 0 →
      (Transaction.preVerify cm tx bytes s col).1 = .error .invalidFormat) := by
  refine ⟨?_, ?_, ?_⟩
  · intro cm tx bytes s col p hdata hfmt hnonce hca hov
    rw [Transaction.preVerify]
    have hps : payloadPreStage tx = .error .invalidFormat := by
      rw [payloadPreStage, hdata]
      dsimp only
      rw [if_pos hov]
    simp [hfmt, hnonce, hca, hps]
  · intro cm tx bytes s col p ncs owner hdata hfmt hnonce hca hov hsc hsd hsig
    rw [Transaction.preVerify]
    have hps : payloadPreStage tx = .ok [] := by
      rw [payloadPreStage, hdata]
      dsimp only
      have h1 : ¬ tx.fee + p.amount ≥ 2 ^ 64 := by omega
      have h2 : ¬ (tx.fee + p.amount < tx.fee ∨ tx.fee + p.amount < p.amount) := by
        omega
      rw [if_neg h1, if_neg h2]
    simp [hfmt, hnonce, hca, hps, hsc, hsd, hsig]
  · intro cm tx bytes s col p ncs owner hdata hfmt hnonce hca hov hsc hsd hsig hms
      hz
    rw [Transaction.preVerify]
    have hps : payloadPreStage tx = .ok [] := by
      rw [payloadPreStage, hdata]
      dsimp only
      have h1 : ¬ tx.fee + p.amount ≥ 2 ^ 64 := by omega
      have h2 : ¬ (tx.fee + p.amount < tx.fee ∨ tx.fee + p.amount < p.amount) := by
        omega
      rw [if_neg h1, if_neg h2]
    have hms2 : multisigCheck cm
        ((s.update_account_nonce tx.source (tx.nonce + 1)).get_multisig_state
          tx.source) tx.multisig bytes = .ok () := hms
    have hpl : ∀ s1 tr1 col1, payloadStage cm tx [] s1 tr1 col1 =
        (.error .invalidFormat, s1, tr1, col1, []) := by
      intro s1 tr1 col1
      rw [payloadStage, hdata]
      simp [hz]
    simp [hfmt, hnonce, hca, hps, hsc, hsd, hsig, hms2, hpl]

/-- Witness for C4 at concrete inputs: a burn of `u64::MAX - 1` with fee
2 overflows and is rejected with `InvalidFormat`; a zero-amount burn on
the all-valid path is rejected with `InvalidFormat` only after the
signature and multisig stages. -/
theorem burn_checks_order_spec_witness :
    (txOver.preVerify cmAll bytes0 s0 []).1 = .error .invalidFormat ∧
    (txBurnZero.preVerify cmNoSig bytes0 s0 []).1 = .error .invalidSignature ∧
    (txBurnZero.preVerify cmAll bytes0 s0 []).1 = .error .invalidFormat :=
  ⟨burn_checks_order_spec.1 cmAll txOver bytes0 s0 [] ⟨0, 2 ^ 64 - 1⟩ rfl rfl rfl
      rfl (by decide),
   burn_checks_order_spec.2.1 cmNoSig txBurnZero bytes0 s0 [] ⟨0, 0⟩ [42] 1 rfl
      rfl rfl rfl (by decide) rfl rfl rfl,
   burn_checks_order_spec.2.2 cmAll txBurnZero bytes0 s0 [] ⟨0, 0⟩ [42] 1 rfl rfl
      rfl rfl (by decide) rfl rfl rfl rfl rfl⟩

lemma multisigSigsLoop_ok_iff (cm : CryptoModel) (ps : List CPoint)
    (h : List Byte) :
    ∀ sigs : List SigId, multisigSigsLoop cm ps h sigs = .ok () ↔
      ∀ sig ∈ sigs, ∃ k pk, ps.get? sig.id = some k ∧ k.decompress = some pk ∧
        cm.sigVerify sig.signature h pk = true
  | [] => by simp [multisigSigsLoop]
  | sig :: rest => by
    rw [multisigSigsLoop, List.forall_mem_cons]
    cases hk : ps.get? sig.id with
    | none =>
      dsimp only
      constructor
      · intro hc
        exact absurd hc (by simp)
      · rintro ⟨⟨k, pk, hksome, -, -⟩, -⟩
        exact Option.noConfusion hksome
    | some key =>
      dsimp only
      cases hd : key.decompress with
      | none =>
        dsimp only
        constructor
        · intro hc
          exact absurd hc (by simp)
        · rintro ⟨⟨k, pk, hksome, hdec, -⟩, -⟩
          cases Option.some.inj hksome
          rw [hd] at hdec
          exact Option.noConfusion hdec
      | some pk =>
        dsimp only
        by_cases hv : cm.sigVerify sig.signature h pk
        · rw [if_pos hv, multisigSigsLoop_ok_iff cm ps h rest]
          constructor
          · intro hrest
            exact ⟨⟨key, pk, rfl, hd, hv⟩, hrest⟩
          · rintro ⟨-, hrest⟩
            exact hrest
        · rw [if_neg hv]
          constructor
          · intro hc
            exact absurd hc (by simp)
          · rintro ⟨⟨k, pk2, hksome, hdec, hver⟩, -⟩
            cases Option.some.inj hksome
            rw [hd] at hdec
            cases Option.some.inj hdec
            exact absurd hver hv

/-- C3: when a multisig config is present and the signature count
matches the threshold, the multisig stage first rejects with
`InvalidFormat` whenever `tail ≥ len` with
`tail = 1 + 1 + SIGNATURE_SIZE + |sigs|·(SIGNATURE_SIZE + 1)` (before
any hashing), and otherwise hashes exactly `tx_bytes[.. len − tail]` and
requires every listed signature to verify against `participants[id]` for
that hash. -/
theorem multisig_body_hash_spec (cm : CryptoModel) (cfg : MultiSigPayload)
    (sigs : List SigId) (bytes : List Byte)
    (hthr : cfg.threshold = sigs.length)
    (hmax : sigs.length ≤ MAX_MULTISIG_PARTICIPANTS) :
    (1 + 1 + SIGNATURE_SIZE + sigs.length * (SIGNATURE_SIZE + 1) ≥ bytes.length →
      multisigCheck cm (some cfg) (some sigs) bytes = .error .invalidFormat) ∧
    (1 + 1 + SIGNATURE_SIZE + sigs.length * (SIGNATURE_SIZE + 1) < bytes.length →
      multisigCheck cm (some cfg) (some sigs) bytes =
        multisigSigsLoop cm cfg.participants
          (cm.hashFn (bytes.take (bytes.length -
            (1 + 1 + SIGNATURE_SIZE + sigs.length * (SIGNATURE_SIZE + 1))))) sigs ∧
      (multisigCheck cm (some cfg) (some sigs) bytes = .ok () ↔
        ∀ sig ∈ sigs, ∃ k pk, cfg.participants.get? sig.id = some k ∧
          k.decompress = some pk ∧
          cm.sigVerify sig.signature
            (cm.hashFn (bytes.take (bytes.length -
              (1 + 1 + SIGNATURE_SIZE + sigs.length * (SIGNATURE_SIZE + 1))))) pk
            = true)) := by
  have hcnt : ¬ (cfg.threshold ≠ sigs.length ∨
      sigs.length > MAX_MULTISIG_PARTICIPANTS) := by
    push_neg
    exact ⟨hthr, hmax⟩
  constructor
  · intro hge
    rw [multisigCheck]
    dsimp only
    rw [if_neg hcnt, if_pos hge]
  · intro hlt
    have heq : multisigCheck cm (some cfg) (some sigs) bytes =
        multisigSigsLoop cm cfg.participants
          (cm.hashFn (bytes.take (bytes.length -
            (1 + 1 + SIGNATURE_SIZE + sigs.length * (SIGNATURE_SIZE + 1))))) sigs := by
      rw [multisigCheck]
      dsimp only
      rw [if_neg hcnt, if_neg (by omega)]
    exact ⟨heq, heq ▸ multisigSigsLoop_ok_iff cm cfg.participants _ sigs⟩

set_option maxRecDepth 8192 in
/-- Witness for C3: a 2-of-3 config against 300 bytes of transaction,
whose tail is 196 bytes; the check reduces to the per-signature loop
over the hash of the first 104 bytes, and with both signatures valid it
passes. -/
theorem multisig_body_hash_spec_witness :
    multisigCheck cmAll (some cfg23) (some [⟨0, 0⟩, ⟨1, 1⟩]) bytesL =
      multisigSigsLoop cmAll cfg23.participants
        (cmAll.hashFn (bytesL.take (bytesL.length -
          (1 + 1 + SIGNATURE_SIZE + 2 * (SIGNATURE_SIZE + 1))))) [⟨0, 0⟩, ⟨1, 1⟩] :=
  ((multisig_body_hash_spec cmAll cfg23 [⟨0, 0⟩, ⟨1, 1⟩] bytesL rfl
    (by decide)).2 (by decide)).1

set_option maxRecDepth 8192 in
/-- C5: with a configured multisig, a transaction without a multisig
header fails (`MultiSigNotFound`); a signature count differing from the
threshold or exceeding `MAX_MULTISIG_PARTICIPANTS` fails with
`MultiSigParticipants`; with no config but a multisig header the result
is `MultiSigNotConfigured`; concretely, a 2-of-3 config presented with 1
signature fails with `MultiSigParticipants` and with 2 valid signatures
on the body hash it passes, and `pre_verify` of a transaction carrying a
multisig header against an unconfigured account fails with
`MultiSigNotConfigured`. -/
theorem multisig_config_spec :
    (∀ (cm : CryptoModel) (cfg : MultiSigPayload) (bytes : List Byte),
      multisigCheck cm (some cfg) none bytes = .error .multiSigNotFound) ∧
    (∀ (cm : CryptoModel) (cfg : MultiSigPayload) (sigs : List SigId)
      (bytes : List Byte),
      cfg.threshold ≠ sigs.length ∨ sigs.length > MAX_MULTISIG_PARTICIPANTS →
      multisigCheck cm (some cfg) (some sigs) bytes =
        .error .multiSigParticipants) ∧
    (∀ (cm : CryptoModel) (sigs : List SigId) (bytes : List Byte),
      multisigCheck cm none (some sigs) bytes = .error .multiSigNotConfigured) ∧
    multisigCheck cmAll (some cfg23) (some [⟨0, 0⟩]) bytesL =
      .error .multiSigParticipants ∧
    multisigCheck cmAll (some cfg23) (some [⟨0, 0⟩, ⟨1, 1⟩]) bytesL = .ok () ∧
    (txBurnMs.preVerify cmAll bytes0 s0 []).1 = .error .multiSigNotConfigured := by
  refine ⟨fun cm cfg bytes => rfl, ?_, fun cm sigs bytes => rfl, rfl, rfl, rfl⟩
  intro cm cfg sigs bytes hbad
  rw [multisigCheck]
  dsimp only
  rw [if_pos hbad]

/-- Witness for C5: a 3-signature list against the 2-of-3 config fails
with `MultiSigParticipants`. -/
theorem multisig_config_spec_witness :
    multisigCheck cmAll (some cfg23) (some [⟨0, 0⟩, ⟨1, 1⟩, ⟨2, 2⟩]) bytesL =
      .error .multiSigParticipants :=
  multisig_config_spec.2.1 cmAll cfg23 [⟨0, 0⟩, ⟨1, 1⟩, ⟨2, 2⟩] bytesL
    (Or.inl (by decide))

lemma nextPow2Go_ge (n : Nat) :
    ∀ (fuel power : Nat), n ≤ 2 ^ fuel * power → n ≤ nextPow2Go n fuel power
  | 0, power => by
    intro h
    simpa [nextPow2Go] using h
  | fuel + 1, power => by
    intro h
    rw [nextPow2Go]
    split
    · apply nextPow2Go_ge n fuel (power * 2)
      calc n ≤ 2 ^ (fuel + 1) * power := h
        _ = 2 ^ fuel * (power * 2) := by ring
    · omega

lemma le_nextPow2 (n : Nat) : n ≤ nextPow2 n :=
  nextPow2Go_ge n n 1 (by simpa using Nat.le_of_lt (Nat.lt_two_pow n))

lemma decompress_components {t : TransferPayload} {d : DecompressedTransferCt}
    (h : DecompressedTransferCt.decompress t = some d) :
    t.commitment.decompress = some d.commitment ∧
    t.sender_handle.decompress = some d.sender_handle ∧
    t.receiver_handle.decompress = some d.receiver_handle := by
  unfold DecompressedTransferCt.decompress at h
  cases hc : t.commitment.decompress with
  | none => rw [hc] at h; simp at h
  | some c =>
    rw [hc] at h
    cases hs : t.sender_handle.decompress with
    | none => rw [hs] at h; simp at h
    | some sh =>
      rw [hs] at h
      cases hr : t.receiver_handle.decompress with
      | none => rw [hr] at h; simp at h
      | some rh =>
        rw [hr] at h
        simp only at h
        cases Option.some.inj h
        exact ⟨rfl, rfl, rfl⟩

lemma decompressTransfers_cons_inv {t : TransferPayload}
    {rest : List TransferPayload} {tds : List DecompressedTransferCt}
    (h : decompressTransfers (t :: rest) = some tds) :
    ∃ d ds, DecompressedTransferCt.decompress t = some d ∧
      decompressTransfers rest = some ds ∧ tds = d :: ds := by
  rw [decompressTransfers] at h
  cases hd : DecompressedTransferCt.decompress t with
  | none => rw [hd] at h; simp at h
  | some d =>
    rw [hd] at h
    cases hds : decompressTransfers rest with
    | none => rw [hds] at h; simp at h
    | some ds =>
      rw [hds] at h
      simp only at h
      exact ⟨d, ds, rfl, rfl, (Option.some.inj h).symm⟩

lemma transferPairs_of_decompress :
    ∀ (ts : List TransferPayload) (tds : List DecompressedTransferCt),
      decompressTransfers ts = some tds →
      (ts.zip tds).map (fun td => (td.2.commitment, td.1.commitment)) =
        ts.map (fun t => ((t.commitment.decompress).getD 0, t.commitment))
  | [], tds, h => by
    rw [decompressTransfers] at h
    cases Option.some.inj h
    rfl
  | t :: rest, tds, h => by
    obtain ⟨d, ds, hd, hds, rfl⟩ := decompressTransfers_cons_inv h
    have hc := (decompress_components hd).1
    simp only [List.zip_cons_cons, List.map_cons]
    rw [transferPairs_of_decompress rest ds hds]
    congr 1
    rw [hc]
    rfl

lemma sourcePairs_of_decompress :
    ∀ (l : List SourceCommitment) (ncs : List Point),
      decompressSourceCommitments l = some ncs →
      (l.zip ncs).map (fun cp => (cp.2, cp.1.commitment)) =
        l.map (fun c => ((c.commitment.decompress).getD 0, c.commitment))
  | [], ncs, h => by
    rw [decompressSourceCommitments] at h
    cases Option.some.inj h
    rfl
  | c :: rest, ncs, h => by
    rw [decompressSourceCommitments] at h
    cases hp : c.commitment.decompress with
    | none => rw [hp] at h; simp at h
    | some p =>
      rw [hp] at h
      cases hrest : decompressSourceCommitments rest with
      | none => rw [hrest] at h; simp at h
      | some ps =>
        rw [hrest] at h
        simp only at h
        cases Option.some.inj h
        simp only [List.zip_cons_cons, List.map_cons]
        rw [sourcePairs_of_decompress rest ps hrest]
        congr 1
        rw [hp]
        rfl

lemma decompressSourceCommitments_length :
    ∀ (l : List SourceCommitment) (ncs : List Point),
      decompressSourceCommitments l = some ncs → ncs.length = l.length
  | [], ncs, h => by
    rw [decompressSourceCommitments] at h
    cases Option.some.inj h
    rfl
  | c :: rest, ncs, h => by
    rw [decompressSourceCommitments] at h
    cases hp : c.commitment.decompress with
    | none => rw [hp] at h; simp at h
    | some p =>
      rw [hp] at h
      cases hrest : decompressSourceCommitments rest with
      | none => rw [hrest] at h; simp at h
      | some ps =>
        rw [hrest] at h
        simp only at h
        cases Option.some.inj h
        simp [decompressSourceCommitments_length rest ps hrest]

lemma decompressTransfers_length :
    ∀ (ts : List TransferPayload) (tds : List DecompressedTransferCt),
      decompressTransfers ts = some tds → tds.length = ts.length
  | [], tds, h => by
    rw [decompressTransfers] at h
    cases Option.some.inj h
    rfl
  | t :: rest, tds, h => by
    obtain ⟨d, ds, -, hds, rfl⟩ := decompressTransfers_cons_inv h
    simp [decompressTransfers_length rest ds hds]

lemma transferApplyLoop_ok_pairs (cm : CryptoModel) :
    ∀ (l : List (TransferPayload × DecompressedTransferCt)) (s : VState)
      (tr : Transcript) (col : List Bool) (pairs : List (Point × CPoint)),
      (transferApplyLoop cm l s tr col pairs).1 = .ok () →
      (transferApplyLoop cm l s tr col pairs).2.2.2.2 =
        pairs ++ l.map (fun td => (td.2.commitment, td.1.commitment))
  | [], s, tr, col, pairs => by
    intro _
    simp [transferApplyLoop]
  | (t, d) :: rest, s, tr, col, pairs => by
    intro h
    rw [transferApplyLoop] at h ⊢
    cases hdst : t.destination.decompress with
    | none => rw [hdst] at h; simp at h
    | some receiver =>
      rw [hdst] at h
      dsimp only at h ⊢
      rw [transferApplyLoop_ok_pairs cm rest _ _ _ _ h]
      simp

lemma payloadPreStage_transfers_inv {tx : Transaction}
    {ts : List TransferPayload} {tds : List DecompressedTransferCt}
    (hdata : tx.data = .transfers ts) (h : payloadPreStage tx = .ok tds) :
    decompressTransfers ts = some tds := by
  rw [payloadPreStage, hdata] at h
  dsimp only at h
  split at h
  · simp at h
  split at h
  · simp at h
  split at h
  · simp at h
  split at h
  · simp at h
  rename_i tds2 hdec
  rw [hdec]
  exact congrArg some (Except.ok.inj h)

lemma transferPairs_length (tx : Transaction) :
    tx.transferPairs.length = tx.numTransfers := by
  cases hdata : tx.data <;>
    simp [Transaction.transferPairs, Transaction.numTransfers, hdata]

/-- C6 (amended): on success, `pre_verify` returns the source-commitment
pairs `(decompressed new commitment point, compressed new commitment
point)` in `source_commitments` order, then the transfer pairs in
transfer order, then `(identity, identity)` padding, for a total length
of the next power of two of `|source_commitments| + |transfers|`. -/
theorem value_commitments_assembly_spec :
    ∀ (cm : CryptoModel) (tx : Transaction) (bytes : List Byte) (s : VState)
      (col : List Bool) (tr : Transcript) (pairs : List (Point × CPoint))
      (s2 : VState) (col2 : List Bool),
      Transaction.preVerify cm tx bytes s col = (.ok (tr, pairs), s2, col2) →
      pairs = tx.source_commitments.map
          (fun c => ((c.commitment.decompress).getD 0, c.commitment)) ++
        tx.transferPairs ++
        List.replicate
          (nextPow2 (tx.source_commitments.length + tx.numTransfers) -
            (tx.source_commitments.length + tx.numTransfers))
          ((0 : Point), CPoint.identity) ∧
      pairs.length =
        nextPow2 (tx.source_commitments.length + tx.numTransfers) := by
  intro cm tx bytes s col tr pairs s2 col2 h
  simp only [Transaction.preVerify] at h
  split at h
  · simp at h
  split at h
  · simp at h
  split at h
  · simp at h
  split at h
  · simp at h
  rename_i tds hps
  split at h
  · simp at h
  rename_i ncs hsc
  split at h
  · simp at h
  rename_i owner hsd
  split at h
  · simp at h
  split at h
  · simp at h
  rename_i u hms
  split at h
  · simp at h
  rename_i u2 s2b tr2 col2b pairs2 heq
  simp only [Prod.mk.injEq, Except.ok.injEq] at h
  obtain ⟨⟨-, hpairs⟩, -, -⟩ := h
  subst hpairs
  have hp2 : pairs2 = tx.transferPairs := by
    cases hdata : tx.data with
    | transfers ts =>
      rw [payloadStage] at heq
      rw [hdata] at heq
      dsimp only at heq
      have hok := congrArg (fun z => z.1) heq
      simp only at hok
      have hmap := transferApplyLoop_ok_pairs cm _ _ _ _ _ hok
      rw [heq] at hmap
      simp only at hmap
      rw [hmap, transferPairs_of_decompress ts tds
        (payloadPreStage_transfers_inv hdata hps)]
      simp [Transaction.transferPairs, hdata]
    | burn p =>
      rw [payloadStage] at heq
      rw [hdata] at heq
      dsimp only at heq
      split at heq
      · simp at heq
      · simp only [Prod.mk.injEq] at heq
        obtain ⟨-, -, -, -, hp⟩ := heq
        simp [Transaction.transferPairs, hdata, hp.symm]
    | multiSig p =>
      rw [payloadStage] at heq
      rw [hdata] at heq
      dsimp only at heq
      split at heq
      · simp at heq
      split at heq
      · simp at heq
      split at heq
      · simp at heq
      simp only [Prod.mk.injEq] at heq
      obtain ⟨-, -, -, -, hp⟩ := heq
      simp [Transaction.transferPairs, hdata, hp.symm]
  have hassemble : assembleCommitments tx ncs pairs2 =
      tx.source_commitments.map
        (fun c => ((c.commitment.decompress).getD 0, c.commitment)) ++
      tx.transferPairs ++
      List.replicate
        (nextPow2 (tx.source_commitments.length + tx.numTransfers) -
          (tx.source_commitments.length + tx.numTransfers))
        ((0 : Point), CPoint.identity) := by
    rw [assembleCommitments]
    rw [sourcePairs_of_decompress _ _ hsc, hp2]
  refine ⟨hassemble, ?_⟩
  rw [hassemble]
  have hle := le_nextPow2 (tx.source_commitments.length + tx.numTransfers)
  simp only [List.length_append, List.length_map, List.length_replicate,
    transferPairs_length]
  omega

/-- Witness for C6 at `txBurn0` against `s6`: one source commitment, no
transfers, next power of two is 1, so the vector is the single source
pair with no padding. -/
theorem value_commitments_assembly_spec_witness :
    [((42 : Point), CPoint.valid 42)] =
      txBurn0.source_commitments.map
        (fun c => ((c.commitment.decompress).getD 0, c.commitment)) ++
      txBurn0.transferPairs ++
      List.replicate
        (nextPow2 (txBurn0.source_commitments.length + txBurn0.numTransfers) -
          (txBurn0.source_commitments.length + txBurn0.numTransfers))
        ((0 : Point), CPoint.identity) ∧
    ([((42 : Point), CPoint.valid 42)] : List (Point × CPoint)).length =
      nextPow2 (txBurn0.source_commitments.length + txBurn0.numTransfers) := by
  have hW : Transaction.preVerify cmAll txBurn0 bytes0 s6 [] =
      (.ok ([TEntry.commit "new_source_commitment" (.valid 42),
             TEntry.hashE "new_source_commitment_asset" 0,
             TEntry.domainSep "new_commitment_eq_proof",
             TEntry.u64 "nonce" 0, TEntry.u64 "fee" 1,
             TEntry.pubkey "source_pubkey" (.valid 1),
             TEntry.u64 "version" 1, TEntry.init "transaction-proof"],
            [((42 : Point), CPoint.valid 42)]),
       ⟨[(.valid 1, 1)],
        [((.valid 1, 0), ⟨94, 7⟩), ((.valid 1, 0), ⟨100, 7⟩)],
        [((.valid 1, 0), ⟨5, 0⟩)],
        [((.valid 1, 0), ⟨6, 0⟩)],
        []⟩,
       [true]) := by decide
  exact value_commitments_assembly_spec cmAll txBurn0 bytes0 s6 [] _ _ _ _ hW

/-- C6 counterexample: at `txBurn0` against `s6` the code's first source
pair is `(42, compressed 42)` — both components are the *new* commitment
— while the claim's `(new_commitment_point, old_commitment_point)`
wording would pair it with the sender's old balance commitment
(compressed 100). -/
theorem value_commitments_old_point_cex :
    ((txBurn0.preVerify cmAll bytes0 s6 []).1.map (fun v => v.2)) =
      .ok [((42 : Point), CPoint.valid 42)] ∧
    specValueCommitmentsC6 s6 txBurn0 = [((42 : Point), CPoint.valid 100)] ∧
    ([((42 : Point), CPoint.valid 42)] : List (Point × CPoint)) ≠
      [((42 : Point), CPoint.valid 100)] := by
  refine ⟨by decide, by decide, by decide⟩

lemma receiverApplyLoop_ok :
    ∀ (ts : List TransferPayload) (tds : List DecompressedTransferCt),
      decompressTransfers ts = some tds →
      ∀ (s : VState), (receiverApplyLoop ts s).1 = .ok ()
  | [], _, _, s => rfl
  | t :: rest, tds, h, s => by
    obtain ⟨d, ds, hd, hds, rfl⟩ := decompressTransfers_cons_inv h
    obtain ⟨hc, -, hrh⟩ := decompress_components hd
    have hctr : t.decompressCt .receiver =
        some ⟨d.commitment, d.receiver_handle⟩ := by
      simp [TransferPayload.decompressCt, hc, hrh]
    rw [receiverApplyLoop, hctr]
    exact receiverApplyLoop_ok rest ds hds _

lemma decompressTxTransfers_transfers {tx : Transaction}
    {ts : List TransferPayload} {tds : List DecompressedTransferCt}
    (hdata : tx.data = .transfers ts)
    (hdt : tx.decompressTxTransfers = .ok tds) :
    decompressTransfers ts = some tds := by
  rw [Transaction.decompressTxTransfers, hdata] at hdt
  dsimp only at hdt
  cases hdts : decompressTransfers ts with
  | none => rw [hdts] at hdt; simp at hdt
  | some tds2 =>
    rw [hdts] at hdt
    simp only at hdt
    exact congrArg some (Except.ok.inj hdt)

lemma applyWithPartialVerify_cases (cm : CryptoModel) (tx : Transaction)
    (s : VState) :
    (tx.applyWithPartialVerify cm s).2 = s ∨
    (tx.applyWithPartialVerify cm s).1 = .ok () := by
  rw [Transaction.applyWithPartialVerify]
  cases hdt : tx.decompressTxTransfers with
  | error e => exact Or.inl rfl
  | ok tds =>
    dsimp only
    cases hsc : decompressSourceCommitments tx.source_commitments with
    | none => exact Or.inl rfl
    | some ncs =>
      dsimp only
      cases hsd : tx.source.decompress with
      | none => exact Or.inl rfl
      | some owner =>
        dsimp only
        cases hall : (partialChangesLoop cm tx owner tds s
            (tx.source_commitments.zip ncs)
            (prepareTranscript tx.version tx.source tx.fee tx.nonce) [] []).2.1.all
            id with
        | false => exact Or.inl rfl
        | true =>
          cases hdata : tx.data with
          | transfers ts =>
            exact Or.inr (receiverApplyLoop_ok ts tds
              (decompressTxTransfers_transfers hdata hdt) _)
          | burn p => exact Or.inr rfl
          | multiSig p => exact Or.inr rfl

/-- C2: `apply_with_partial_verify` is two-phase — all sender-balance
updates are built on cloned shadow ciphertexts, the sigma batch is
verified, and only then is the state written — so on every input on
which it returns an error the state is completely unmutated. -/
theorem applyWithPartialVerify_unmutated_on_error :
    ∀ (cm : CryptoModel) (tx : Transaction) (s : VState) (e : VerificationError),
      (tx.applyWithPartialVerify cm s).1 = .error e →
      (tx.applyWithPartialVerify cm s).2 = s := by
  intro cm tx s e h
  rcases applyWithPartialVerify_cases cm tx s with h2 | h2
  · exact h2
  · rw [h2] at h
    exact Except.noConfusion h

/-- Witness for C2: a failing sigma batch (`cmBadEq`) on `txBurn0` over
`s6` leaves the state exactly `s6`. -/
theorem applyWithPartialVerify_unmutated_on_error_witness :
    (txBurn0.applyWithPartialVerify cmBadEq s6).2 = s6 :=
  applyWithPartialVerify_unmutated_on_error cmBadEq txBurn0 s6 .proof (by decide)

lemma applyWithPartialVerify_nonces (cm : CryptoModel) (tx : Transaction)
    (s : VState) : ((tx.applyWithPartialVerify cm s).2).nonces = s.nonces := by
  rw [Transaction.applyWithPartialVerify]
  cases hdt : tx.decompressTxTransfers with
  | error e => rfl
  | ok tds =>
    dsimp only
    cases hsc : decompressSourceCommitments tx.source_commitments with
    | none => rfl
    | some ncs =>
      dsimp only
      cases hsd : tx.source.decompress with
      | none => rfl
      | some owner =>
        dsimp only
        cases hall : (partialChangesLoop cm tx owner tds s
            (tx.source_commitments.zip ncs)
            (prepareTranscript tx.version tx.source tx.fee tx.nonce) [] []).2.1.all
            id with
        | false => rfl
        | true =>
          cases hdata : tx.data with
          | transfers ts =>
            exact (receiverApplyLoop_nonces _ _).trans
              (commitChangesLoop_nonces _ _ _)
          | burn p => exact commitChangesLoop_nonces _ _ _
          | multiSig p => exact commitChangesLoop_nonces _ _ _

/-- C10: `apply_with_partial_verify` never calls `update_account_nonce`
— the nonce observable through `get_account_nonce` is unchanged for
every account — while `apply_without_verify` sets the source account's
nonce to `tx.nonce + 1`. -/
theorem apply_nonce_frame_spec :
    (∀ (cm : CryptoModel) (tx : Transaction) (s : VState) (k : CPoint),
      ((tx.applyWithPartialVerify cm s).2).get_account_nonce k =
        s.get_account_nonce k) ∧
    (∀ (tx : Transaction) (s : VState),
      ((tx.applyWithoutVerify s).2).get_account_nonce tx.source =
        tx.nonce + 1) := by
  constructor
  · intro cm tx s k
    exact get_account_nonce_congr (applyWithPartialVerify_nonces cm tx s) k
  · intro tx s
    rw [Transaction.applyWithoutVerify]
    cases hdt : tx.decompressTxTransfers with
    | error e => exact get_account_nonce_update_self s tx.source (tx.nonce + 1)
    | ok tds =>
      dsimp only
      cases hdata : tx.data with
      | transfers ts =>
        dsimp only
        have hn := (receiverApplyLoop_nonces ts
            (senderApplyLoop tx tds tx.source_commitments
              (s.update_account_nonce tx.source (tx.nonce + 1)))).trans
          (senderApplyLoop_nonces tx tds tx.source_commitments
            (s.update_account_nonce tx.source (tx.nonce + 1)))
        exact (get_account_nonce_congr hn tx.source).trans
          (get_account_nonce_update_self s tx.source (tx.nonce + 1))
      | burn p =>
        have hn : ((Except.ok (), senderApplyLoop tx tds tx.source_commitments
            (s.update_account_nonce tx.source (tx.nonce + 1))) :
              Except VerificationError Unit × VState).2.nonces =
            (s.update_account_nonce tx.source (tx.nonce + 1)).nonces :=
          senderApplyLoop_nonces tx tds tx.source_commitments _
        exact (get_account_nonce_congr hn tx.source).trans
          (get_account_nonce_update_self s tx.source (tx.nonce + 1))
      | multiSig p =>
        have hn : ((senderApplyLoop tx tds tx.source_commitments
            (s.update_account_nonce tx.source (tx.nonce + 1))).set_multisig_state
              tx.source p).nonces =
            (s.update_account_nonce tx.source (tx.nonce + 1)).nonces :=
          senderApplyLoop_nonces tx tds tx.source_commitments _
        exact (get_account_nonce_congr hn tx.source).trans
          (get_account_nonce_update_self s tx.source (tx.nonce + 1))

end Xelis
